import Mathlib

/-!
Verification of the `ccgo` agent broker against its specification.

Shallow embedding of the core subsystems:
- the PTY replay buffer (`src/pty/mod.rs`, reader thread and `get_buffer`);
- the generic agent adapter (`src/agent/mod.rs`: `is_reply_complete`,
  `strip_done_marker`, `extract_sentinel_id`);
- the log providers (`src/log_provider/{codex,gemini,opencode}.rs`);
- the path mapper (`src/log_provider/path_mapper.rs`);
- the WebSocket receive/input tasks (`src/web/websocket.rs`).

Rust strings are modelled as `List Char`; machine integers that never
overflow in the modelled paths (`u64` offsets, `usize` lengths) as `Nat`;
timestamps (`chrono::DateTime<Utc>`, a totally ordered type whose default
sentinel is the Unix epoch) as `Int` with the epoch at `0`.  The external
`regex` crate is modelled by an abstract compile function
`List Char → Option (List Char → Bool)` (`Regex::new` composed with
`is_match`), and abstract capture extraction for `extract_sentinel_id`;
theorems about the adapter quantify over that function.  Filesystem
reads are modelled by data already holding the parsed content together
with a read-success flag.
-/

/-! ## Character and line utilities (Rust `str` semantics) -/

/-- Rust `char::is_whitespace`: the Unicode `White_Space` code points. -/
def isRustWs (c : Char) : Bool :=
  let n := c.toNat
  (9 ≤ n && n ≤ 13) || n = 32 || n = 133 || n = 160 || n = 5760 ||
  (8192 ≤ n && n ≤ 8202) || n = 8232 || n = 8233 || n = 8239 || n = 8287 || n = 12288

/-- Rust `str::trim_end`: remove trailing whitespace characters. -/
def trimEndWs (l : List Char) : List Char :=
  (l.reverse.dropWhile isRustWs).reverse

/-- Rust `line.trim().is_empty()`: the line consists only of whitespace. -/
def isBlankL (l : List Char) : Bool :=
  l.all isRustWs

/-- Strip one trailing carriage return (the `\r` of a `\r\n` line ending). -/
def stripTrailCR (l : List Char) : List Char :=
  if l.getLast? = some '\r' then l.dropLast else l

/-- Worker for `rLines`; `cur` is the current (incomplete) line. -/
def rLinesAux (cur : List Char) : List Char → List (List Char)
  | [] => if cur.isEmpty then [] else [cur]
  | c :: rest =>
    if c = '\n' then stripTrailCR cur :: rLinesAux [] rest
    else rLinesAux (cur ++ [c]) rest

/-- Rust `str::lines`: split at `\n` or `\r\n`; the final line ending is
optional, and a final line without terminator keeps any trailing `\r`. -/
def rLines (s : List Char) : List (List Char) :=
  rLinesAux [] s

/-- Rust `slice::join("\n")` on a list of lines. -/
def joinNl : List (List Char) → List Char
  | [] => []
  | [l] => l
  | l :: ls => l ++ '\n' :: joinNl ls

/-- `lines().rev().find(|l| !l.trim().is_empty())`: last non-blank line. -/
def revFindNonBlank (ls : List (List Char)) : Option (List Char) :=
  ls.reverse.find? (fun l => !(isBlankL l))

/-- The last `n` elements of a list (all of it when `n ≥ length`). -/
def lastN (n : Nat) (l : List α) : List α :=
  l.drop (l.length - n)

/-! ## PTY replay buffer (`src/pty/mod.rs` lines 123-161, reader thread)

One iteration of the reader thread's buffer update for a chunk `data`:
if `buffer_limit` is `0` the update is skipped; a chunk of length
`≥ buffer_limit` replaces the buffer with the chunk's last
`buffer_limit` bytes (`buf_lock.clear(); extend(data[start..])`);
otherwise the oldest `new_total - buffer_limit` bytes are removed
(`split_to`) before appending. -/
def appendChunk (limit : Nat) (buf data : List α) : List α :=
  if limit = 0 then buf
  else if limit ≤ data.length then data.drop (data.length - limit)
  else if limit < buf.length + data.length then
    (buf.drop (buf.length + data.length - limit)) ++ data
  else buf ++ data

/-- The replay-buffer contents after the reader thread has appended all
chunks, starting from the empty `BytesMut`; `get_buffer()`
(`src/pty/mod.rs` line 193) returns a snapshot of exactly this list. -/
def ptyBufferAfter (limit : Nat) (chunks : List (List α)) : List α :=
  chunks.foldl (appendChunk limit) []

theorem appendChunk_lastN {α : Type _} (C : Nat) (hC : 0 < C) (pre data : List α) :
    appendChunk C (lastN C pre) data = lastN C (pre ++ data) := by
  unfold appendChunk lastN
  have hC0 : ¬ C = 0 := Nat.pos_iff_ne_zero.mp hC
  simp only [hC0, if_false, List.length_drop, List.length_append]
  by_cases h1 : C ≤ data.length
  · simp only [h1, if_true]
    have : pre.length + data.length - C = pre.length + (data.length - C) := by omega
    rw [this, List.drop_append]
  · simp only [h1, if_false]
    by_cases h2 : C < pre.length - (pre.length - C) + data.length
    · simp only [h2, if_true]
      rw [List.drop_drop]
      have hidx : pre.length - C + (pre.length - (pre.length - C) + data.length - C) =
          pre.length + data.length - C := by omega
      have hle : pre.length + data.length - C ≤ pre.length := by omega
      rw [hidx, List.drop_append_of_le_length hle]
    · simp only [h2, if_false]
      have hd : pre.length + data.length - C = pre.length - C := by omega
      rw [hd]
      rcases Nat.lt_or_ge pre.length C with hp | hp
      · have h0 : pre.length - C = 0 := by omega
        rw [h0, List.drop_zero, List.drop_zero]
      · have hdl : data.length = 0 := by omega
        have : data = [] := List.eq_nil_of_length_eq_zero hdl
        subst this
        simp [List.drop_append_of_le_length (by omega : pre.length - C ≤ pre.length)]

theorem ptyBufferAfter_acc {α : Type _} (C : Nat) (hC : 0 < C)
    (chunks : List (List α)) (pre : List α) :
    chunks.foldl (appendChunk C) (lastN C pre) = lastN C (pre ++ chunks.flatten) := by
  induction chunks generalizing pre with
  | nil => simp
  | cons c cs ih =>
    simp only [List.foldl_cons, List.flatten_cons]
    rw [appendChunk_lastN C hC pre c, ih (pre ++ c), List.append_assoc]

/-- Claim C1: for every sequence of chunks appended by the PTY reader
thread and every replay capacity `C > 0`, the replay buffer returned by
`get_buffer()` is exactly the last `min(L, C)` bytes of the concatenated
output, and in particular its length never exceeds `C`. -/
theorem pty_replay_buffer_tail {α : Type _} (C : Nat) (chunks : List (List α))
    (hC : 0 < C) :
    ptyBufferAfter C chunks = lastN C chunks.flatten ∧
    (ptyBufferAfter C chunks).length = min chunks.flatten.length C := by
  have h : ptyBufferAfter C chunks = lastN C chunks.flatten := by
    have := ptyBufferAfter_acc C hC chunks []
    simpa [ptyBufferAfter, lastN] using this
  refine ⟨h, ?_⟩
  rw [h]
  simp only [lastN, List.length_drop]
  omega

/-- Witness for C1: spec scenario S2 — capacity 8, chunks `"ABCDEFGHIJ"`
then `"K"`; the buffer holds `"DEFGHIJK"`. -/
theorem pty_replay_buffer_tail_witness :
    (0 < 8) ∧
    (ptyBufferAfter 8 [("ABCDEFGHIJ").data, ("K").data] =
      lastN 8 (List.flatten [("ABCDEFGHIJ").data, ("K").data]) ∧
     (ptyBufferAfter 8 [("ABCDEFGHIJ").data, ("K").data]).length =
      min (List.flatten [("ABCDEFGHIJ").data, ("K").data]).length 8) ∧
    ptyBufferAfter 8 [("ABCDEFGHIJ").data, ("K").data] = ("DEFGHIJK").data :=
  ⟨by decide, pty_replay_buffer_tail 8 _ (by decide), by decide⟩

/-! ## Generic agent adapter (`src/agent/mod.rs`)

`is_reply_complete` and `strip_done_marker` both build the pattern
`done_regex.replace("{id}", &regex::escape(message_id))` and compile it
with `Regex::new`.  The regex engine is external; it is modelled by an
abstract `compile : List Char → Option (List Char → Bool)` standing for
`Regex::new(pattern).ok()` composed with `is_match`.  `extract_sentinel_id`
additionally reads capture groups, modelled by an abstract captures
function. -/

/-- `regex_syntax::is_meta_character`: the characters `regex::escape`
prefixes with a backslash. -/
def isRegexMeta (c : Char) : Bool :=
  c = '\\' || c = '.' || c = '+' || c = '*' || c = '?' || c = '(' || c = ')' ||
  c = '|' || c = '[' || c = ']' || c = '{' || c = '}' || c = '^' || c = '$' ||
  c = '#' || c = '&' || c = '-' || c = '~'

/-- `regex::escape`. -/
def regexEscape (s : List Char) : List Char :=
  s.flatMap (fun c => if isRegexMeta c then ['\\', c] else [c])

/-- Rust `str::replace` for a nonempty needle (the needle used by the
adapter is the literal token `{id}`): replace all non-overlapping
occurrences left to right. -/
def rustReplace (s pat rep : List Char) : List Char :=
  match s with
  | [] => []
  | c :: rest =>
    if _h : 0 < pat.length ∧ pat.isPrefixOf (c :: rest) then
      rep ++ rustReplace ((c :: rest).drop pat.length) pat rep
    else
      c :: rustReplace rest pat rep
termination_by s.length
decreasing_by
  · simp only [List.length_drop, List.length_cons]
    omega
  · simp only [List.length_cons]
    omega

/-- The substituted done pattern:
`done_regex.replace("{id}", &regex::escape(message_id))`. -/
def donePattern (done_regex message_id : List Char) : List Char :=
  rustReplace done_regex ("{id}").data (regexEscape message_id)

/-- `GenericAgent::is_reply_complete` (`src/agent/mod.rs` lines 123-134):
compile the substituted pattern (`false` on compile error), then test the
last non-blank line. -/
def is_reply_complete (compile : List Char → Option (List Char → Bool))
    (done_regex message_id text : List Char) : Bool :=
  match compile (donePattern done_regex message_id) with
  | none => false
  | some m => ((revFindNonBlank (rLines text)).map m).getD false

/-- The loop of `strip_done_marker` over `lines.iter().rev()`: while the
marker has not been found, blank lines are skipped and the first matching
line is dropped (setting `found_marker`); every later line is kept. -/
def stripPhase1 (m : List Char → Bool) : List (List Char) → List (List Char)
  | [] => []
  | l :: ls =>
    if isBlankL l then stripPhase1 m ls
    else if m l then ls
    else l :: stripPhase1 m ls

/-- `GenericAgent::strip_done_marker` (`src/agent/mod.rs` lines 136-160):
on compile error return the text unchanged; otherwise run the reverse
scan, restore order, join with `\n` and `trim_end`. -/
def strip_done_marker (compile : List Char → Option (List Char → Bool))
    (done_regex message_id text : List Char) : List Char :=
  match compile (donePattern done_regex message_id) with
  | none => text
  | some m => trimEndWs (joinNl ((stripPhase1 m (rLines text).reverse).reverse))

/-- Result model for `extract_sentinel_id`: Rust's `c[1]` indexing panics
when the match has no participating capture group 1. -/
inductive SentinelResult where
  | panicked : SentinelResult
  | returns (v : Option (List Char)) : SentinelResult
deriving DecidableEq

/-- Rust `Captures` indexing `c[1]`: the capture text when group 1
participated in the match, a panic otherwise. -/
def capIndex1 (groups : List (Option (List Char))) : SentinelResult :=
  match groups.get? 1 with
  | some (some s) => .returns (some s)
  | _ => .panicked

/-- `GenericAgent::extract_sentinel_id` (`src/agent/mod.rs` lines 114-117):
`Regex::new(&self.sentinel_regex).ok()?` then
`pattern.captures(output).map(|c| c[1].to_string())`.  `caps` is the
abstract compiled regex: `none` when compilation fails, otherwise a
function returning `none` on no match and the capture-group list
(index 0 is the whole match) on a match. -/
def extract_sentinel_id
    (caps : Option (List Char → Option (List (Option (List Char)))))
    (output : List Char) : SentinelResult :=
  match caps with
  | none => .returns none
  | some f =>
    match f output with
    | none => .returns none
    | some groups => capIndex1 groups

/-! ## Lemmas about lines, trimming and the reverse scan -/

theorem mem_stripTrailCR {c : Char} {l : List Char} (h : c ∈ stripTrailCR l) : c ∈ l := by
  unfold stripTrailCR at h
  split at h
  · exact (List.dropLast_sublist l).mem h
  · exact h

theorem rLinesAux_no_nl (s : List Char) :
    ∀ cur, '\n' ∉ cur → ∀ l ∈ rLinesAux cur s, '\n' ∉ l := by
  induction s with
  | nil =>
    intro cur hcur l hl
    unfold rLinesAux at hl
    split at hl
    · simp at hl
    · simp at hl
      subst hl
      exact hcur
  | cons c rest ih =>
    intro cur hcur l hl
    unfold rLinesAux at hl
    split at hl
    · rename_i hc
      subst hc
      rcases List.mem_cons.mp hl with h | h
      · subst h
        intro hmem
        exact hcur (mem_stripTrailCR hmem)
      · exact ih [] (by simp) l h
    · rename_i hc
      refine ih (cur ++ [c]) ?_ l hl
      intro hmem
      rcases List.mem_append.mp hmem with h | h
      · exact hcur h
      · simp at h
        exact hc h.symm

theorem rLines_no_nl {s : List Char} {l : List Char} (h : l ∈ rLines s) : '\n' ∉ l :=
  rLinesAux_no_nl s [] (by simp) l h

theorem rLinesAux_no_nl_run (b : List Char) :
    ∀ cur, cur ++ b ≠ [] → '\n' ∉ b → rLinesAux cur b = [cur ++ b] := by
  induction b with
  | nil =>
    intro cur hne _
    unfold rLinesAux
    simp only [List.append_nil] at hne ⊢
    simp [List.isEmpty_iff, hne]
  | cons c rest ih =>
    intro cur _ hnl
    unfold rLinesAux
    have hc : ¬ c = '\n' := by
      intro h
      exact hnl (h ▸ List.mem_cons_self c rest)
    simp only [hc, if_false]
    have := ih (cur ++ [c]) (by simp) (fun h => hnl (List.mem_cons_of_mem c h))
    rw [this, List.append_assoc]
    rfl

theorem rLinesAux_append_nl (x : List Char) :
    ∀ cur (b : List Char), b ≠ [] → '\n' ∉ b →
      rLinesAux cur (x ++ '\n' :: b) = rLinesAux cur (x ++ ['\n']) ++ [b] := by
  induction x with
  | nil =>
    intro cur b hb hnl
    simp only [List.nil_append]
    unfold rLinesAux
    simp only [if_pos rfl]
    rw [rLinesAux_no_nl_run b [] (by simpa using hb) hnl]
    rfl
  | cons c x' ih =>
    intro cur b hb hnl
    simp only [List.cons_append]
    unfold rLinesAux
    by_cases hc : c = '\n'
    · simp only [hc, if_pos rfl]
      rw [ih [] b hb hnl]
      rfl
    · simp only [hc, if_false]
      exact ih (cur ++ [c]) b hb hnl

theorem rLines_single {b : List Char} (hb : b ≠ []) (hnl : '\n' ∉ b) :
    rLines b = [b] := by
  unfold rLines
  simpa using rLinesAux_no_nl_run b [] (by simpa using hb) hnl

theorem rLines_append_last {x b : List Char} (hb : b ≠ []) (hnl : '\n' ∉ b) :
    rLines (x ++ '\n' :: b) = rLines (x ++ ['\n']) ++ [b] :=
  rLinesAux_append_nl x [] b hb hnl

theorem revFindNonBlank_concat_nonblank {ls : List (List Char)} {b : List Char}
    (hb : isBlankL b = false) :
    revFindNonBlank (ls ++ [b]) = some b := by
  unfold revFindNonBlank
  rw [List.reverse_append]
  simp [List.find?_cons, hb]

theorem revFindNonBlank_concat_blank {ls : List (List Char)} {b : List Char}
    (hb : isBlankL b = true) :
    revFindNonBlank (ls ++ [b]) = revFindNonBlank ls := by
  unfold revFindNonBlank
  rw [List.reverse_append]
  simp [List.find?_cons, hb]

theorem isBlankL_nonblank_ne_nil {b : List Char} (hb : isBlankL b = false) : b ≠ [] := by
  intro h
  subst h
  simp [isBlankL] at hb

theorem trimEndWs_append_ws {a w : List Char} (hw : ∀ c ∈ w, isRustWs c = true) :
    trimEndWs (a ++ w) = trimEndWs a := by
  unfold trimEndWs
  rw [List.reverse_append, List.dropWhile_append_of_pos]
  intro c hc
  exact hw c (List.mem_reverse.mp hc)

theorem trimEndWs_append_keep {a b : List Char}
    (hb : (b.reverse.dropWhile isRustWs) ≠ []) :
    trimEndWs (a ++ b) = a ++ trimEndWs b := by
  unfold trimEndWs
  rw [List.reverse_append, List.dropWhile_append]
  simp only [List.isEmpty_iff, hb, if_false]
  rw [List.reverse_append, List.reverse_reverse]

theorem dropWhile_ne_nil_of_nonblank {b : List Char} (hb : isBlankL b = false) :
    b.reverse.dropWhile isRustWs ≠ [] := by
  intro h
  rw [List.dropWhile_eq_nil_iff] at h
  apply absurd hb
  simp only [isBlankL, Bool.not_eq_false, List.all_eq_true]
  intro c hc
  exact h c (List.mem_reverse.mpr hc)

theorem isBlankL_trimEndWs (l : List Char) : isBlankL (trimEndWs l) = isBlankL l := by
  conv_rhs => rw [← List.reverse_reverse l, ← List.takeWhile_append_dropWhile (p := isRustWs) (l := l.reverse)]
  unfold trimEndWs isBlankL
  rw [List.reverse_append]
  simp only [List.all_append, List.all_reverse]
  have : (l.reverse.takeWhile isRustWs).all isRustWs = true := by
    rw [List.all_eq_true]
    intro c hc
    exact List.mem_takeWhile_imp hc
  rw [this, Bool.and_true]

theorem trimEndWs_ne_nil_of_nonblank {l : List Char} (hb : isBlankL l = false) :
    trimEndWs l ≠ [] := by
  unfold trimEndWs
  intro h
  exact dropWhile_ne_nil_of_nonblank hb (by simpa using h)

theorem mem_trimEndWs {c : Char} {l : List Char} (h : c ∈ trimEndWs l) : c ∈ l := by
  unfold trimEndWs at h
  rw [List.mem_reverse] at h
  exact List.mem_reverse.mp ((List.dropWhile_sublist isRustWs).mem h)

theorem joinNl_cons_ne (p : List Char) (ps : List (List Char)) (h : ps ≠ []) :
    joinNl (p :: ps) = p ++ '\n' :: joinNl ps := by
  cases ps with
  | nil => exact absurd rfl h
  | cons q qs => rfl

theorem joinNl_concat (ps : List (List Char)) (l : List Char) :
    joinNl (ps ++ [l]) = if ps.isEmpty then l else joinNl ps ++ '\n' :: l := by
  induction ps with
  | nil => rfl
  | cons p ps' ih =>
    rw [List.cons_append, joinNl_cons_ne p (ps' ++ [l]) (by simp)]
    cases ps' with
    | nil => rfl
    | cons q qs =>
      rw [ih]
      simp only [List.isEmpty_cons, if_neg (by simp : ¬ (false = true))]
      rw [joinNl_cons_ne p (q :: qs) (by simp), List.append_assoc]
      rfl

theorem revFindNonBlank_reply (pre : List (List Char)) (hnl : ∀ l ∈ pre, '\n' ∉ l) :
    revFindNonBlank (rLines (trimEndWs (joinNl pre))) = (revFindNonBlank pre).map trimEndWs := by
  induction pre using List.reverseRecOn with
  | nil => simp [joinNl, trimEndWs, rLines, rLinesAux, revFindNonBlank]
  | append_singleton ps l ih =>
    have hnl_ps : ∀ x ∈ ps, '\n' ∉ x := fun x hx => hnl x (List.mem_append_left _ hx)
    have hnl_l : '\n' ∉ l := hnl l (by simp)
    rw [joinNl_concat]
    by_cases hbl : isBlankL l = true
    · by_cases hpe : ps.isEmpty = true
      · have hps : ps = [] := List.isEmpty_iff.mp hpe
        subst hps
        simp only [List.isEmpty_nil, if_true]
        have h0 : trimEndWs l = [] := by
          unfold trimEndWs
          have : l.reverse.dropWhile isRustWs = [] := by
            rw [List.dropWhile_eq_nil_iff]
            intro x hx
            simp only [isBlankL, List.all_eq_true] at hbl
            exact hbl x (List.mem_reverse.mp hx)
          rw [this]
          rfl
        rw [h0]
        simp [rLines, rLinesAux, revFindNonBlank, hbl]
      · have hpne : ps ≠ [] := fun h => hpe (by simp [h])
        rw [if_neg (by simpa [List.isEmpty_iff] using hpne)]
        rw [trimEndWs_append_ws (w := '\n' :: l) ?hw]
        case hw =>
          intro c hc
          rcases List.mem_cons.mp hc with h | h
          · subst h
            decide
          · simp only [isBlankL, List.all_eq_true] at hbl
            exact hbl c h
        rw [ih hnl_ps, revFindNonBlank_concat_blank hbl]
    · have hbl' : isBlankL l = false := by simpa using hbl
      have hkeep : l.reverse.dropWhile isRustWs ≠ [] := dropWhile_ne_nil_of_nonblank hbl'
      have htne : trimEndWs l ≠ [] := trimEndWs_ne_nil_of_nonblank hbl'
      have htnl : '\n' ∉ trimEndWs l := fun h => hnl_l (mem_trimEndWs h)
      have htb : isBlankL (trimEndWs l) = false := by
        rw [isBlankL_trimEndWs]
        exact hbl'
      by_cases hpe : ps.isEmpty = true
      · have hps : ps = [] := List.isEmpty_iff.mp hpe
        subst hps
        simp only [List.isEmpty_nil, if_true]
        rw [rLines_single htne htnl]
        have h1 : revFindNonBlank [trimEndWs l] = some (trimEndWs l) := by
          simpa using @revFindNonBlank_concat_nonblank [] (trimEndWs l) htb
        have h2 : revFindNonBlank [l] = some l := by
          simpa using @revFindNonBlank_concat_nonblank [] l hbl'
        simp only [List.nil_append]
        rw [h1, h2]
        rfl
      · have hpne : ps ≠ [] := fun h => hpe (by simp [h])
        rw [if_neg (by simpa [List.isEmpty_iff] using hpne)]
        have hkeep2 : ('\n' :: l).reverse.dropWhile isRustWs ≠ [] := by
          rw [List.reverse_cons, List.dropWhile_append]
          simp only [List.isEmpty_iff, hkeep, if_neg hkeep]
          simp
        rw [trimEndWs_append_keep (a := joinNl ps) (b := '\n' :: l) hkeep2]
        rw [show ('\n' :: l : List Char) = ['\n'] ++ l from rfl,
            trimEndWs_append_keep (a := ['\n']) (b := l) hkeep]
        show revFindNonBlank (rLines (joinNl ps ++ '\n' :: trimEndWs l)) = _
        rw [rLines_append_last htne htnl]
        rw [revFindNonBlank_concat_nonblank htb, revFindNonBlank_concat_nonblank hbl']
        rfl

theorem find?_append_none {α : Type _} {l₁ l₂ : List α} {p : α → Bool}
    (h : ∀ x ∈ l₁, p x = false) : (l₁ ++ l₂).find? p = l₂.find? p := by
  rw [List.find?_append]
  have h0 : l₁.find? p = none := List.find?_eq_none.mpr (by
    intro x hx
    simp [h x hx])
  rw [h0]
  rfl

theorem revFindNonBlank_middle (pre : List (List Char)) (marker : List Char)
    (blanks : List (List Char)) (hb : ∀ b ∈ blanks, isBlankL b = true)
    (hm : isBlankL marker = false) :
    revFindNonBlank (pre ++ marker :: blanks) = some marker := by
  unfold revFindNonBlank
  rw [List.reverse_append, List.reverse_cons, List.append_assoc,
      find?_append_none (fun x hx => by simp [hb x (List.mem_reverse.mp hx)])]
  simp [List.find?_cons, hm]

theorem stripPhase1_blanks (m : List Char → Bool) (bl rest : List (List Char))
    (h : ∀ b ∈ bl, isBlankL b = true) :
    stripPhase1 m (bl ++ rest) = stripPhase1 m rest := by
  induction bl with
  | nil => rfl
  | cons b bl' ih =>
    rw [List.cons_append]
    show (if isBlankL b then stripPhase1 m (bl' ++ rest)
          else if m b then bl' ++ rest else b :: stripPhase1 m (bl' ++ rest)) =
      stripPhase1 m rest
    rw [if_pos (h b (List.mem_cons_self b bl'))]
    exact ih (fun x hx => h x (List.mem_cons_of_mem b hx))

theorem stripPhase1_marker (m : List Char → Bool) (marker : List Char)
    (rest : List (List Char)) (hm : isBlankL marker = false) (hmm : m marker = true) :
    stripPhase1 m (marker :: rest) = rest := by
  show (if isBlankL marker then stripPhase1 m rest
        else if m marker then rest else marker :: stripPhase1 m rest) = rest
  rw [if_neg (by simp [hm]), if_pos hmm]

/-- Claim C2 counterexample: with a matcher that matches exactly the line
`[[DONE a1]]` (as the compiled done regex does), the text consisting of
two consecutive marker lines satisfies `is_reply_complete`, yet after
`strip_done_marker` removes only the final marker line the result STILL
satisfies `is_reply_complete` — refuting "is_reply_complete(reply, id)
does not hold". -/
theorem strip_done_marker_second_marker_cex :
    (is_reply_complete
        (fun _ => some (fun l => decide (l = ("[[DONE a1]]").data)))
        (("X").data) (("a1").data)
        (("[[DONE a1]]\n[[DONE a1]]").data) = true) ∧
    (strip_done_marker
        (fun _ => some (fun l => decide (l = ("[[DONE a1]]").data)))
        (("X").data) (("a1").data)
        (("[[DONE a1]]\n[[DONE a1]]").data) = ("[[DONE a1]]").data) ∧
    (is_reply_complete
        (fun _ => some (fun l => decide (l = ("[[DONE a1]]").data)))
        (("X").data) (("a1").data)
        (strip_done_marker
          (fun _ => some (fun l => decide (l = ("[[DONE a1]]").data)))
          (("X").data) (("a1").data)
          (("[[DONE a1]]\n[[DONE a1]]").data)) = true) := by
  refine ⟨?_, ?_, ?_⟩ <;> decide

/-- Claim C2 (amended): whenever `is_reply_complete(text, id)` holds,
the stripped reply re-joined with the marker line (the last non-blank
line of `text`) again satisfies `is_reply_complete`; and
`is_reply_complete(reply, id)` FAILS provided the marker is the only
line contributing a match: every line before it fails the pattern even
after trailing-whitespace removal (the counterexample above shows this
proviso cannot be dropped). -/
theorem strip_done_marker_roundtrip :
    (∀ (compile : List Char → Option (List Char → Bool)) (dr id text : List Char),
       is_reply_complete compile dr id text = true →
       ∃ marker, revFindNonBlank (rLines text) = some marker ∧
         is_reply_complete compile dr id
           (strip_done_marker compile dr id text ++ '\n' :: marker) = true)
    ∧
    (∀ (compile : List Char → Option (List Char → Bool)) (dr id : List Char)
       (m : List Char → Bool) (text : List Char)
       (pre : List (List Char)) (marker : List Char) (blanks : List (List Char)),
       compile (donePattern dr id) = some m →
       rLines text = pre ++ marker :: blanks →
       (∀ b ∈ blanks, isBlankL b = true) →
       isBlankL marker = false →
       m marker = true →
       (∀ l ∈ pre, m (trimEndWs l) = false) →
       is_reply_complete compile dr id text = true ∧
       is_reply_complete compile dr id (strip_done_marker compile dr id text) = false) := by
  constructor
  · intro compile dr id text h
    unfold is_reply_complete at h ⊢
    cases hc : compile (donePattern dr id) with
    | none => rw [hc] at h; exact absurd h (by simp)
    | some m =>
      rw [hc] at h
      cases hf : revFindNonBlank (rLines text) with
      | none => rw [hf] at h; exact absurd h (by simp)
      | some marker =>
        rw [hf] at h
        have hmm : m marker = true := by simpa using h
        refine ⟨marker, rfl, ?_⟩
        have hf' : (rLines text).reverse.find? (fun l => !(isBlankL l)) = some marker := hf
        have hnb : isBlankL marker = false := by
          have := List.find?_some hf'
          simpa using this
        have hmem : marker ∈ rLines text :=
          List.mem_reverse.mp (List.mem_of_find?_eq_some hf')
        have hnl : '\n' ∉ marker := rLines_no_nl hmem
        have hne : marker ≠ [] := isBlankL_nonblank_ne_nil hnb
        rw [rLines_append_last hne hnl, revFindNonBlank_concat_nonblank hnb]
        simp [hmm]
  · intro compile dr id m text pre marker blanks hc hlines hblanks hmb hmm hpre
    have hpre_nl : ∀ l ∈ pre, '\n' ∉ l := by
      intro l hl
      exact rLines_no_nl (by rw [hlines]; exact List.mem_append_left _ hl)
    have hstrip : strip_done_marker compile dr id text = trimEndWs (joinNl pre) := by
      unfold strip_done_marker
      rw [hc]
      show trimEndWs (joinNl ((stripPhase1 m (rLines text).reverse).reverse)) =
        trimEndWs (joinNl pre)
      rw [hlines, List.reverse_append, List.reverse_cons, List.append_assoc,
          stripPhase1_blanks m blanks.reverse _
            (fun b hb => hblanks b (List.mem_reverse.mp hb))]
      have heq : ([marker] ++ pre.reverse : List (List Char)) = marker :: pre.reverse := rfl
      rw [heq, stripPhase1_marker m marker pre.reverse hmb hmm, List.reverse_reverse]
    constructor
    · unfold is_reply_complete
      rw [hc, hlines, revFindNonBlank_middle pre marker blanks hblanks hmb]
      simp [hmm]
    · unfold is_reply_complete
      rw [hc, hstrip, revFindNonBlank_reply pre hpre_nl]
      cases hp : revFindNonBlank pre with
      | none => simp
      | some l =>
        have hl : l ∈ pre := List.mem_reverse.mp (List.mem_of_find?_eq_some hp)
        simp [hpre l hl]

/-- Witness for C2 (amended), spec scenario S1: `"hi there\n[[DONE a1]]"`
with the exact-marker matcher; both conjuncts applied at this input. -/
theorem strip_done_marker_roundtrip_witness :
    (is_reply_complete
        (fun _ => some (fun l => decide (l = ("[[DONE a1]]").data)))
        (("X").data) (("a1").data) (("hi there\n[[DONE a1]]").data) = true) ∧
    (∃ marker,
       revFindNonBlank (rLines (("hi there\n[[DONE a1]]").data)) = some marker ∧
       is_reply_complete
         (fun _ => some (fun l => decide (l = ("[[DONE a1]]").data)))
         (("X").data) (("a1").data)
         (strip_done_marker
            (fun _ => some (fun l => decide (l = ("[[DONE a1]]").data)))
            (("X").data) (("a1").data)
            (("hi there\n[[DONE a1]]").data) ++ '\n' :: marker) = true) ∧
    (is_reply_complete
        (fun _ => some (fun l => decide (l = ("[[DONE a1]]").data)))
        (("X").data) (("a1").data) (("hi there\n[[DONE a1]]").data) = true ∧
     is_reply_complete
        (fun _ => some (fun l => decide (l = ("[[DONE a1]]").data)))
        (("X").data) (("a1").data)
        (strip_done_marker
          (fun _ => some (fun l => decide (l = ("[[DONE a1]]").data)))
          (("X").data) (("a1").data)
          (("hi there\n[[DONE a1]]").data)) = false) :=
  ⟨by decide,
   strip_done_marker_roundtrip.1
     (fun _ => some (fun l => decide (l = ("[[DONE a1]]").data)))
     (("X").data) (("a1").data) (("hi there\n[[DONE a1]]").data) (by decide),
   strip_done_marker_roundtrip.2
     (fun _ => some (fun l => decide (l = ("[[DONE a1]]").data)))
     (("X").data) (("a1").data)
     (fun l => decide (l = ("[[DONE a1]]").data))
     (("hi there\n[[DONE a1]]").data)
     [("hi there").data] (("[[DONE a1]]").data) []
     rfl (by decide) (by decide) (by decide) (by decide) (by decide)⟩

theorem reverse_find?_eq_filter_getLast? {α : Type _} (l : List α) (p : α → Bool) :
    l.reverse.find? p = (l.filter p).getLast? := by
  induction l using List.reverseRecOn with
  | nil => rfl
  | append_singleton xs x ih =>
    have h1 : (xs ++ [x]).reverse = x :: xs.reverse := by
      rw [List.reverse_append]
      rfl
    cases hp : p x with
    | true =>
      have h2 : List.filter p [x] = [x] := by simp [hp]
      rw [h1, List.find?_cons, hp, List.filter_append, h2, List.getLast?_concat]
    | false =>
      have h2 : List.filter p [x] = [] := by simp [hp]
      rw [h1, List.find?_cons, hp, List.filter_append, h2, List.append_nil]
      exact ih

/-- The specification's reading of reply completeness: the last non-blank
line of the text, written independently of the code's reverse scan. -/
def specLastNonBlankLine (text : List Char) : Option (List Char) :=
  ((rLines text).filter (fun l => !(isBlankL l))).getLast?

theorem is_reply_complete_eq_spec
    (compile : List Char → Option (List Char → Bool))
    (done_regex message_id text : List Char) (m : List Char → Bool)
    (hc : compile (donePattern done_regex message_id) = some m) :
    is_reply_complete compile done_regex message_id text =
      ((specLastNonBlankLine text).map m).getD false := by
  unfold is_reply_complete
  rw [hc]
  show ((revFindNonBlank (rLines text)).map m).getD false = _
  unfold revFindNonBlank specLastNonBlankLine
  rw [reverse_find?_eq_filter_getLast?]

/-- Claim C3: `is_reply_complete(text, id)` is true iff the last
non-blank line of `text` matches the regex obtained from `done_regex`
by replacing `{id}` with the regex-escaped request id (whose compiled
matcher is `m`); in particular it is false when the text has no
non-blank line. -/
theorem is_reply_complete_spec
    (compile : List Char → Option (List Char → Bool))
    (done_regex message_id text : List Char) (m : List Char → Bool)
    (hc : compile (donePattern done_regex message_id) = some m) :
    (is_reply_complete compile done_regex message_id text = true ↔
      ∃ l, specLastNonBlankLine text = some l ∧ m l = true) ∧
    (specLastNonBlankLine text = none →
      is_reply_complete compile done_regex message_id text = false) := by
  rw [is_reply_complete_eq_spec compile done_regex message_id text m hc]
  constructor
  · cases hg : specLastNonBlankLine text with
    | none => simp
    | some l => simp
  · intro hnone
    rw [hnone]
    rfl

/-- Witness for C3 at the S1 scenario text, with the exact-marker matcher. -/
theorem is_reply_complete_spec_witness :
    ((is_reply_complete
        (fun _ => some (fun l => decide (l = ("[[DONE a1]]").data)))
        (("X").data) (("a1").data) (("hi there\n[[DONE a1]]").data) = true ↔
      ∃ l, specLastNonBlankLine (("hi there\n[[DONE a1]]").data) = some l ∧
        decide (l = ("[[DONE a1]]").data) = true) ∧
     (specLastNonBlankLine (("hi there\n[[DONE a1]]").data) = none →
      is_reply_complete
        (fun _ => some (fun l => decide (l = ("[[DONE a1]]").data)))
        (("X").data) (("a1").data) (("hi there\n[[DONE a1]]").data) = false)) :=
  is_reply_complete_spec
    (fun _ => some (fun l => decide (l = ("[[DONE a1]]").data)))
    (("X").data) (("a1").data) (("hi there\n[[DONE a1]]").data)
    (fun l => decide (l = ("[[DONE a1]]").data)) rfl

theorem extract_sentinel_id_some (f : List Char → Option (List (Option (List Char))))
    (output : List Char) :
    extract_sentinel_id (some f) output =
      match f output with
      | none => SentinelResult.returns none
      | some groups => capIndex1 groups := rfl

/-- Claim C10: `extract_sentinel_id` panics whenever the sentinel regex
compiles and matches but the match carries no (participating) capture
group 1; and it returns `None` exactly when the regex fails to compile
or does not match — never for a matching regex without a first capture
group. -/
theorem extract_sentinel_id_panics :
    (∀ (f : List Char → Option (List (Option (List Char))))
       (output : List Char) (groups : List (Option (List Char))),
       f output = some groups →
       (groups.get? 1).bind id = none →
       extract_sentinel_id (some f) output = .panicked)
    ∧
    (∀ (caps : Option (List Char → Option (List (Option (List Char)))))
       (output : List Char),
       extract_sentinel_id caps output = .returns none ↔
         (caps = none ∨ ∃ f, caps = some f ∧ f output = none)) := by
  constructor
  · intro f output groups hf hg
    rw [extract_sentinel_id_some, hf]
    show capIndex1 groups = SentinelResult.panicked
    unfold capIndex1
    cases h1 : groups.get? 1 with
    | none => rfl
    | some o =>
      cases o with
      | none => rfl
      | some s =>
        rw [h1] at hg
        simp at hg
  · intro caps output
    cases caps with
    | none => simp [extract_sentinel_id]
    | some f =>
      rw [extract_sentinel_id_some]
      cases hf : f output with
      | none => simp [hf]
      | some groups =>
        constructor
        · intro h
          have h2 : capIndex1 groups = SentinelResult.returns none := h
          unfold capIndex1 at h2
          cases h1 : groups.get? 1 with
          | none => rw [h1] at h2; exact absurd h2 (by simp)
          | some o =>
            cases o with
            | none => rw [h1] at h2; exact absurd h2 (by simp)
            | some s => rw [h1] at h2; exact absurd h2 (by simp)
        · intro h
          rcases h with h | ⟨g, hg, hout⟩
          · exact absurd h (by simp)
          · rw [Option.some_inj] at hg
            subst hg
            rw [hout] at hf
            exact absurd hf (by simp)

/-- Witness for C10: a regex that matches the whole output but has no
capture group 1 makes `extract_sentinel_id` panic. -/
theorem extract_sentinel_id_panics_witness :
    ((fun _ => some [some (("whole").data)]) (("out").data) =
        some [some (("whole").data)]) ∧
    (([some (("whole").data)].get? 1).bind id = none) ∧
    extract_sentinel_id (some (fun _ => some [some (("whole").data)]))
      (("out").data) = .panicked :=
  ⟨rfl, by decide,
   extract_sentinel_id_panics.1 (fun _ => some [some (("whole").data)])
     (("out").data) [some (("whole").data)] rfl (by decide)⟩

/-! ## PathMapper (`src/log_provider/path_mapper.rs`) -/

/-- Rust `char::to_ascii_lowercase`. -/
def asciiLower (c : Char) : Char :=
  if 'A' ≤ c ∧ c ≤ 'Z' then Char.ofNat (c.toNat + 32) else c

/-- Rust `char::to_ascii_uppercase`. -/
def asciiUpper (c : Char) : Char :=
  if 'a' ≤ c ∧ c ≤ 'z' then Char.ofNat (c.toNat - 32) else c

/-- `path.replace('\\', "/")` on one character. -/
def bslashToSlash (c : Char) : Char :=
  if c = '\\' then '/' else c

/-- `rest.replace('/', "\\")` on one character. -/
def slashToBslash (c : Char) : Char :=
  if c = '/' then '\\' else c

/-- `PathMapper::to_wsl_path` (`path_mapper.rs` lines 39-51): when the
path has length ≥ 2 and its second character is `:`, produce
`/mnt/<lowercase drive><rest with backslashes replaced>`; otherwise just
replace backslashes with forward slashes. -/
def to_wsl_path (p : List Char) : List Char :=
  match p with
  | c0 :: ':' :: rest =>
    '/' :: 'm' :: 'n' :: 't' :: '/' :: asciiLower c0 :: rest.map bslashToSlash
  | _ => p.map bslashToSlash

/-- `PathMapper::to_windows_path` (`path_mapper.rs` lines 53-63): when
the path starts with `/mnt/` and has length ≥ 7, produce
`<uppercase drive>:<rest with slashes replaced>`; otherwise return the
path unchanged. -/
def to_windows_path (p : List Char) : List Char :=
  match p with
  | '/' :: 'm' :: 'n' :: 't' :: '/' :: d :: c :: rest =>
    asciiUpper d :: ':' :: (c :: rest).map slashToBslash
  | _ => p

/-- Claim C7 counterexample: the WSL-form path `/mnt/c/a\b` (which
contains a backslash in its tail) does not round-trip:
`to_wsl_path(to_windows_path(p))` yields `/mnt/c/a/b`, which differs
from `p` even ignoring letter case everywhere. -/
theorem path_roundtrip_backslash_cex :
    to_wsl_path (to_windows_path (("/mnt/c/a\\b").data)) = ("/mnt/c/a/b").data ∧
    ("/mnt/c/a/b").data ≠ ("/mnt/c/a\\b").data ∧
    ("/mnt/c/a/b").data.map asciiLower ≠ ("/mnt/c/a\\b").data.map asciiLower := by
  refine ⟨?_, ?_, ?_⟩ <;> decide

theorem map_id_of_mem {α : Type _} {l : List α} {f : α → α}
    (h : ∀ c ∈ l, f c = c) : l.map f = l := by
  induction l with
  | nil => rfl
  | cons c cs ih =>
    rw [List.map_cons, h c (List.mem_cons_self c cs),
        ih (fun x hx => h x (List.mem_cons_of_mem c hx))]

/-- The ASCII letters admissible as drive letters. -/
def driveLetters : List Char :=
  ("abcdefghijklmnopqrstuvwxyzABCDEFGHIJKLMNOPQRSTUVWXYZ").data

theorem asciiLower_asciiUpper {d : Char} (h : d ∈ driveLetters) :
    asciiLower (asciiUpper d) = asciiLower d :=
  (by decide : ∀ x ∈ driveLetters, asciiLower (asciiUpper x) = asciiLower x) d h

theorem asciiUpper_asciiLower {d : Char} (h : d ∈ driveLetters) :
    asciiUpper (asciiLower d) = asciiUpper d :=
  (by decide : ∀ x ∈ driveLetters, asciiUpper (asciiLower x) = asciiUpper x) d h

/-- Claim C7 (amended): for WSL-form paths `/mnt/<letter>/...` whose
tail contains no backslash, `to_wsl_path (to_windows_path p)` returns
`p` up to lower-casing the drive letter; and for Windows-form paths
`<letter>:\...` whose tail contains no forward slash,
`to_windows_path (to_wsl_path p)` returns `p` up to upper-casing the
drive letter.  (The counterexample shows the separator-purity proviso
cannot be dropped.) -/
theorem path_roundtrip :
    (∀ (d : Char) (r : List Char), d ∈ driveLetters → '\\' ∉ r →
       to_wsl_path (to_windows_path ('/' :: 'm' :: 'n' :: 't' :: '/' :: d :: '/' :: r)) =
         '/' :: 'm' :: 'n' :: 't' :: '/' :: asciiLower d :: '/' :: r)
    ∧
    (∀ (d : Char) (r : List Char), d ∈ driveLetters → '/' ∉ r →
       to_windows_path (to_wsl_path (d :: ':' :: '\\' :: r)) =
         asciiUpper d :: ':' :: '\\' :: r) := by
  constructor
  · intro d r hd hr
    have h1 : to_windows_path ('/' :: 'm' :: 'n' :: 't' :: '/' :: d :: '/' :: r) =
        asciiUpper d :: ':' :: '\\' :: r.map slashToBslash := by
      show asciiUpper d :: ':' :: ('/' :: r).map slashToBslash = _
      rw [List.map_cons]
      rfl
    have h2 : to_wsl_path (asciiUpper d :: ':' :: '\\' :: r.map slashToBslash) =
        '/' :: 'm' :: 'n' :: 't' :: '/' :: asciiLower (asciiUpper d) ::
          ('\\' :: r.map slashToBslash).map bslashToSlash := rfl
    rw [h1, h2, List.map_cons, List.map_map, asciiLower_asciiUpper hd]
    have h3 : r.map (bslashToSlash ∘ slashToBslash) = r := by
      apply map_id_of_mem
      intro c hc
      have hne : c ≠ '\\' := fun h => hr (h ▸ hc)
      by_cases h4 : c = '/'
      · subst h4
        rfl
      · simp [Function.comp, slashToBslash, bslashToSlash, h4, hne]
    rw [h3]
    rfl
  · intro d r hd hr
    have h1 : to_wsl_path (d :: ':' :: '\\' :: r) =
        '/' :: 'm' :: 'n' :: 't' :: '/' :: asciiLower d :: '/' :: r.map bslashToSlash := by
      show '/' :: 'm' :: 'n' :: 't' :: '/' :: asciiLower d ::
        ('\\' :: r).map bslashToSlash = _
      rw [List.map_cons]
      rfl
    have h2 : to_windows_path ('/' :: 'm' :: 'n' :: 't' :: '/' :: asciiLower d :: '/' ::
        r.map bslashToSlash) =
        asciiUpper (asciiLower d) :: ':' :: ('/' :: r.map bslashToSlash).map slashToBslash :=
      rfl
    rw [h1, h2, List.map_cons, List.map_map, asciiUpper_asciiLower hd]
    have h3 : r.map (slashToBslash ∘ bslashToSlash) = r := by
      apply map_id_of_mem
      intro c hc
      have hne : c ≠ '/' := fun h => hr (h ▸ hc)
      by_cases h4 : c = '\\'
      · subst h4
        rfl
      · simp [Function.comp, slashToBslash, bslashToSlash, h4, hne]
    rw [h3]
    rfl

/-- Witness for C7: both round-trip directions at
`/mnt/c/Users/test/file.txt` and `C:\Users\test\file.txt` (the paths of
the unit tests in `path_mapper.rs`). -/
theorem path_roundtrip_witness :
    (('c' ∈ driveLetters) ∧ '\\' ∉ ("Users/test/file.txt").data ∧
      to_wsl_path (to_windows_path (("/mnt/c/Users/test/file.txt").data)) =
        ("/mnt/c/Users/test/file.txt").data) ∧
    (('C' ∈ driveLetters) ∧ '/' ∉ ("Users\\test\\file.txt").data ∧
      to_windows_path (to_wsl_path (("C:\\Users\\test\\file.txt").data)) =
        ("C:\\Users\\test\\file.txt").data) := by
  constructor
  · refine ⟨by decide, by decide, ?_⟩
    have h := path_roundtrip.1 'c' (("Users/test/file.txt").data) (by decide) (by decide)
    exact h.trans (by decide)
  · refine ⟨by decide, by decide, ?_⟩
    have h := path_roundtrip.2 'C' (("Users\\test\\file.txt").data) (by decide) (by decide)
    exact h.trans (by decide)

/-! ## WebSocket receive and input tasks (`src/web/websocket.rs`)

Incoming frames are modelled by `WsFrame`; an `err` frame stands for a
`Some(Err(_))` item, which ends the `while let Some(Ok(msg))` loop just
as `Close` does.  `serde_json::from_str::<ControlCommand>` is external
and is modelled by an abstract
`parse : List Char → Option (Nat × Nat)` returning the `(cols, rows)`
of a parsed resize command (`u16` values, hence `< 65536`, though no
theorem needs that bound). -/

inductive InputData where
  | fromText (s : List Char) : InputData
  | fromBinary (b : List Nat) : InputData
deriving DecidableEq

/-- The `PtyMessage` enum of `websocket.rs`. -/
inductive PtyMessage where
  | input (d : InputData) : PtyMessage
  | resize (cols rows : Nat) : PtyMessage
deriving DecidableEq

inductive WsFrame where
  | text (s : List Char) : WsFrame
  | binary (b : List Nat) : WsFrame
  | close : WsFrame
  | err : WsFrame
  | other : WsFrame
deriving DecidableEq

/-- `MIN_TERMINAL_SIZE`/`MAX_TERMINAL_SIZE` clamp (`websocket.rs` lines
19-21 and 164-166): `cols.clamp(1, 500)`. -/
def clampTerm (n : Nat) : Nat :=
  max 1 (min n 500)

/-- `spawn_recv_task` (`websocket.rs` lines 150-188): the sequence of
`PtyMessage`s sent on the input channel for a sequence of incoming
frames.  Text frames starting with `\x00` are control commands parsed
by `parse`; malformed ones are dropped; other text and binary frames
are forwarded as input only when `input_enabled`. -/
def recvMsgs (parse : List Char → Option (Nat × Nat)) (enabled : Bool) :
    List WsFrame → List PtyMessage
  | [] => []
  | f :: fs =>
    match f with
    | .text s =>
      match s with
      | c :: rest =>
        if c = '\x00' then
          match parse rest with
          | some (cols, rows) =>
            .resize (clampTerm cols) (clampTerm rows) :: recvMsgs parse enabled fs
          | none => recvMsgs parse enabled fs
        else if enabled then .input (.fromText s) :: recvMsgs parse enabled fs
        else recvMsgs parse enabled fs
      | [] =>
        if enabled then .input (.fromText s) :: recvMsgs parse enabled fs
        else recvMsgs parse enabled fs
    | .binary d =>
      if enabled then .input (.fromBinary d) :: recvMsgs parse enabled fs
      else recvMsgs parse enabled fs
    | .close => []
    | .err => []
    | .other => recvMsgs parse enabled fs

/-- Operations reaching the PTY handle. -/
inductive PtyOp where
  | write (d : InputData) : PtyOp
  | winResize (cols rows : Nat) : PtyOp
deriving DecidableEq

/-- `spawn_input_task` (`websocket.rs` lines 128-148) with a live PTY:
each channel message becomes one PTY operation, in order. -/
def inputTaskOps : List PtyMessage → List PtyOp
  | [] => []
  | .input d :: ms => .write d :: inputTaskOps ms
  | .resize c r :: ms => .winResize c r :: inputTaskOps ms

/-- Claim C8: a `\x00`-prefixed text frame whose body parses as a resize
command is forwarded as a PTY resize with `cols` and `rows` clamped to
`[1, 500]`, regardless of `input_enabled`. -/
theorem resize_clamped_any_input_state
    (parse : List Char → Option (Nat × Nat)) (enabled : Bool)
    (s : List Char) (cols rows : Nat) (rest : List WsFrame)
    (hp : parse s = some (cols, rows)) :
    recvMsgs parse enabled (.text ('\x00' :: s) :: rest) =
      .resize (clampTerm cols) (clampTerm rows) :: recvMsgs parse enabled rest ∧
    inputTaskOps (recvMsgs parse enabled (.text ('\x00' :: s) :: rest)) =
      .winResize (clampTerm cols) (clampTerm rows) ::
        inputTaskOps (recvMsgs parse enabled rest) ∧
    1 ≤ clampTerm cols ∧ clampTerm cols ≤ 500 ∧
    1 ≤ clampTerm rows ∧ clampTerm rows ≤ 500 := by
  have h1 : recvMsgs parse enabled (.text ('\x00' :: s) :: rest) =
      .resize (clampTerm cols) (clampTerm rows) :: recvMsgs parse enabled rest := by
    show (if '\x00' = '\x00' then
        match parse s with
        | some (cols, rows) =>
          PtyMessage.resize (clampTerm cols) (clampTerm rows) :: recvMsgs parse enabled rest
        | none => recvMsgs parse enabled rest
      else if enabled then
        PtyMessage.input (.fromText ('\x00' :: s)) :: recvMsgs parse enabled rest
      else recvMsgs parse enabled rest) = _
    rw [if_pos rfl, hp]
  refine ⟨h1, ?_, ?_, ?_, ?_, ?_⟩
  · rw [h1]
    rfl
  all_goals simp [clampTerm]

/-- Witness for C8: spec scenario S5 — the browser sends
`{"type":"resize","cols":0,"rows":1000}` with the NUL prefix; the PTY
receives resize `(1, 500)`, with input disabled and with it enabled. -/
theorem resize_clamped_any_input_state_witness :
    ((fun s => if s = ("\x7b\"type\":\"resize\",\"cols\":0,\"rows\":1000\x7d").data
        then some (0, 1000) else none)
      (("\x7b\"type\":\"resize\",\"cols\":0,\"rows\":1000\x7d").data) = some (0, 1000)) ∧
    (recvMsgs
      (fun s => if s = ("\x7b\"type\":\"resize\",\"cols\":0,\"rows\":1000\x7d").data
        then some (0, 1000) else none)
      false
      [.text ('\x00' :: ("\x7b\"type\":\"resize\",\"cols\":0,\"rows\":1000\x7d").data)] =
      [.resize 1 500]) ∧
    (recvMsgs
      (fun s => if s = ("\x7b\"type\":\"resize\",\"cols\":0,\"rows\":1000\x7d").data
        then some (0, 1000) else none)
      true
      [.text ('\x00' :: ("\x7b\"type\":\"resize\",\"cols\":0,\"rows\":1000\x7d").data)] =
      [.resize 1 500]) := by
  refine ⟨by decide, ?_, ?_⟩
  · rw [(resize_clamped_any_input_state _ false _ 0 1000 [] (by decide)).1]
    decide
  · rw [(resize_clamped_any_input_state _ true _ 0 1000 [] (by decide)).1]
    decide

/-- Frames that can influence the PTY when input is disabled: control
text frames (NUL prefix) and the loop-ending frames; plain text frames
and binary frames are erased. -/
def keepFrame : WsFrame → Bool
  | .text (c :: _) => c = '\x00'
  | .text [] => false
  | .binary _ => false
  | .close => true
  | .err => true
  | .other => true

theorem recvMsgs_disabled_erase (parse : List Char → Option (Nat × Nat)) :
    ∀ frames, recvMsgs parse false frames = recvMsgs parse false (frames.filter keepFrame) := by
  intro frames
  induction frames with
  | nil => rfl
  | cons f fs ih =>
    cases f with
    | text s =>
      cases s with
      | nil =>
        have hk : keepFrame (.text []) = false := rfl
        rw [List.filter_cons, hk]
        simp only [Bool.false_eq_true, if_false]
        exact ih
      | cons c cs =>
        by_cases hc : c = '\x00'
        · subst hc
          have hk : keepFrame (.text ('\x00' :: cs)) = true := by
            show (decide ('\x00' = '\x00')) = true
            decide
          rw [List.filter_cons, hk, if_pos rfl]
          show (match parse cs with
            | some (cols, rows) =>
              PtyMessage.resize (clampTerm cols) (clampTerm rows) :: recvMsgs parse false fs
            | none => recvMsgs parse false fs) =
            (match parse cs with
            | some (cols, rows) =>
              PtyMessage.resize (clampTerm cols) (clampTerm rows) ::
                recvMsgs parse false (fs.filter keepFrame)
            | none => recvMsgs parse false (fs.filter keepFrame))
          cases parse cs with
          | none => exact ih
          | some p => rw [ih]
        · have hk : keepFrame (.text (c :: cs)) = false := by
            show (decide (c = '\x00')) = false
            simp [hc]
          rw [List.filter_cons, hk]
          simp only [Bool.false_eq_true, if_false]
          show (if c = '\x00' then
              match parse cs with
              | some (cols, rows) =>
                PtyMessage.resize (clampTerm cols) (clampTerm rows) :: recvMsgs parse false fs
              | none => recvMsgs parse false fs
            else if false then
              PtyMessage.input (.fromText (c :: cs)) :: recvMsgs parse false fs
            else recvMsgs parse false fs) = _
          rw [if_neg hc]
          simp only [Bool.false_eq_true, if_false]
          exact ih
    | binary d =>
      have hk : keepFrame (.binary d) = false := rfl
      rw [List.filter_cons, hk]
      simp only [Bool.false_eq_true, if_false]
      show (if false then
          PtyMessage.input (.fromBinary d) :: recvMsgs parse false fs
        else recvMsgs parse false fs) = _
      simp only [Bool.false_eq_true, if_false]
      exact ih
    | close =>
      have hk : keepFrame .close = true := rfl
      rw [List.filter_cons, hk, if_pos rfl]
      rfl
    | err =>
      have hk : keepFrame .err = true := rfl
      rw [List.filter_cons, hk, if_pos rfl]
      rfl
    | other =>
      have hk : keepFrame .other = true := rfl
      rw [List.filter_cons, hk, if_pos rfl]
      exact ih

theorem recvMsgs_disabled_all_resize (parse : List Char → Option (Nat × Nat)) :
    ∀ frames msg, msg ∈ recvMsgs parse false frames →
      ∃ c r, msg = PtyMessage.resize c r := by
  intro frames
  induction frames with
  | nil => intro msg h; exact absurd h (by simp [recvMsgs])
  | cons f fs ih =>
    intro msg h
    cases f with
    | text s =>
      cases s with
      | nil =>
        refine ih msg ?_
        have h' : msg ∈ (if false then
            PtyMessage.input (.fromText ([] : List Char)) :: recvMsgs parse false fs
          else recvMsgs parse false fs) := h
        simpa using h'
      | cons c cs =>
        by_cases hc : c = '\x00'
        · subst hc
          have h' : msg ∈ (match parse cs with
              | some (cols, rows) =>
                PtyMessage.resize (clampTerm cols) (clampTerm rows) :: recvMsgs parse false fs
              | none => recvMsgs parse false fs) := h
          cases hp : parse cs with
          | none =>
            rw [hp] at h'
            exact ih msg h'
          | some p =>
            rw [hp] at h'
            rcases List.mem_cons.mp h' with h0 | h0
            · exact ⟨clampTerm p.1, clampTerm p.2, h0⟩
            · exact ih msg h0
        · have h' : msg ∈ (if c = '\x00' then
              match parse cs with
              | some (cols, rows) =>
                PtyMessage.resize (clampTerm cols) (clampTerm rows) :: recvMsgs parse false fs
              | none => recvMsgs parse false fs
            else if false then
              PtyMessage.input (.fromText (c :: cs)) :: recvMsgs parse false fs
            else recvMsgs parse false fs) := h
          rw [if_neg hc] at h'
          simp only [Bool.false_eq_true, if_false] at h'
          exact ih msg h'
    | binary d =>
      have h' : msg ∈ (if false then
          PtyMessage.input (.fromBinary d) :: recvMsgs parse false fs
        else recvMsgs parse false fs) := h
      simp only [Bool.false_eq_true, if_false] at h'
      exact ih msg h'
    | close => exact absurd h (by simp [recvMsgs])
    | err => exact absurd h (by simp [recvMsgs])
    | other => exact ih msg h

theorem inputTaskOps_all_resize (msgs : List PtyMessage)
    (h : ∀ m ∈ msgs, ∃ a b, m = PtyMessage.resize a b) :
    ∀ op ∈ inputTaskOps msgs, ∃ c r, op = PtyOp.winResize c r := by
  induction msgs with
  | nil => intro op hop; exact absurd hop (by simp [inputTaskOps])
  | cons m ms ih =>
    intro op hop
    obtain ⟨a, b, hm⟩ := h m (List.mem_cons_self m ms)
    subst hm
    simp only [inputTaskOps] at hop
    rcases List.mem_cons.mp hop with h1 | h1
    · exact ⟨a, b, h1⟩
    · exact ih (fun x hx => h x (List.mem_cons_of_mem _ hx)) op h1

/-- Claim C9: with `web.input_enabled = false`, no plain text frame and
no binary frame ever reaches the PTY: every operation sent toward the
PTY is a resize, and any two frame sequences that agree after erasing
plain text and binary frames produce the identical operation
sequence toward the PTY. -/
theorem input_disabled_no_pty_input :
    (∀ (parse : List Char → Option (Nat × Nat)) (frames : List WsFrame),
       ∀ op ∈ inputTaskOps (recvMsgs parse false frames),
         ∃ c r, op = PtyOp.winResize c r)
    ∧
    (∀ (parse : List Char → Option (Nat × Nat)) (f1 f2 : List WsFrame),
       f1.filter keepFrame = f2.filter keepFrame →
       inputTaskOps (recvMsgs parse false f1) = inputTaskOps (recvMsgs parse false f2)) := by
  constructor
  · intro parse frames
    exact inputTaskOps_all_resize _ (recvMsgs_disabled_all_resize parse frames)
  · intro parse f1 f2 hf
    rw [recvMsgs_disabled_erase parse f1, recvMsgs_disabled_erase parse f2, hf]

/-- Witness for C9: two frame sequences differing only in a plain text
frame and a binary frame yield the same (resize-only) PTY operations. -/
theorem input_disabled_no_pty_input_witness :
    (PtyOp.winResize 1 500 ∈ inputTaskOps (recvMsgs
        (fun _ => some (0, 1000)) false
        [.text (("h").data), .text ('\x00' :: ("x").data), .binary [1, 2]]) →
      ∃ c r, PtyOp.winResize 1 500 = PtyOp.winResize c r) ∧
    ([WsFrame.text (("h").data), .text ('\x00' :: ("x").data), .binary [1, 2]].filter
        keepFrame =
      [WsFrame.text ('\x00' :: ("x").data)].filter keepFrame) ∧
    inputTaskOps (recvMsgs (fun _ => some (0, 1000)) false
        [.text (("h").data), .text ('\x00' :: ("x").data), .binary [1, 2]]) =
      inputTaskOps (recvMsgs (fun _ => some (0, 1000)) false
        [.text ('\x00' :: ("x").data)]) :=
  ⟨input_disabled_no_pty_input.1 (fun _ => some (0, 1000)) _ (PtyOp.winResize 1 500),
   by decide,
   input_disabled_no_pty_input.2 (fun _ => some (0, 1000)) _ _ (by decide)⟩

/-! ## Log providers (`src/log_provider/{gemini,opencode,codex}.rs`)

The providers are embedded at the level of parsed session data:
`parse_chat_json` / `parse_session_json` / `parse_jsonl_entry` are
serde-based (external) and their output — a list of
`(role, content, timestamp)` triples — is the model's input.  A session
file carries its name, its modification time, a read-success flag
(`read_file_to_string` may fail) and its parsed entries; the chats
directory is the list of its files in iteration order.  Timestamps are
`Int` with `default_timestamp` (the Unix epoch) at `0`. -/

structure ChatMsg where
  role : String
  content : String
  ts : Int
deriving DecidableEq

structure GLogEntry where
  content : String
  offset : Nat
  ts : Int
deriving DecidableEq

/-- `GeminiLogProvider::is_assistant_role`. -/
def is_assistant_role (r : String) : Bool :=
  r = "assistant" || r = "model" || r = "gemini"

/-- `content.trim().is_empty()`. -/
def strBlank (s : String) : Bool :=
  s.data.all isRustWs

/-- The qualification test of `find_assistant_reply`'s `rfind` closure:
`is_assistant_role(role) && !content.trim().is_empty()`. -/
def gQualifies (e : ChatMsg) : Bool :=
  is_assistant_role e.role && !(strBlank e.content)

/-- `GeminiLogProvider::find_assistant_reply` (`gemini.rs` lines
212-236): clamp `since_offset` to the entry count, scan the suffix from
the END (`rfind`) for a qualifying entry, and report offset
`start + local_idx + 1`. -/
def find_assistant_reply (entries : List ChatMsg) (since : Nat) : Option GLogEntry :=
  (((entries.drop (min since entries.length)).enum).reverse.find?
      (fun p => gQualifies p.2)).map
    (fun p => ⟨p.2.content, min since entries.length + p.1 + 1, p.2.ts⟩)

/-- `GeminiLogProvider::find_assistant_reply_by_timestamp` (`gemini.rs`
lines 238-257): last entry that is assistant, strictly newer than the
baseline, and non-blank; offset is `idx + 1` in the full array. -/
def find_assistant_reply_by_timestamp (entries : List ChatMsg) (baseline : Int) :
    Option GLogEntry :=
  ((entries.enum).reverse.find? (fun p =>
      is_assistant_role p.2.role && decide (baseline < p.2.ts) && !(strBlank p.2.content))).map
    (fun p => ⟨p.2.content, p.1 + 1, p.2.ts⟩)

/-- A session file as the provider sees it. -/
structure GFile where
  name : String
  mtime : Nat
  readOk : Bool
  entries : List ChatMsg
deriving DecidableEq

/-- `read_file_to_string` followed by `parse_chat_json`. -/
def gRead (f : GFile) : Option (List ChatMsg) :=
  if f.readOk then some f.entries else none

/-- The `session-*.json` filename filter:
`n.starts_with("session-") && n.ends_with(".json")`. -/
def sessionNameOk (n : String) : Bool :=
  ("session-").data.isPrefixOf n.data && (".json").data.isSuffixOf n.data

/-- `GeminiLogProvider::scan_latest_session_file_in_chats_dir`
(`gemini.rs` lines 146-172): keep the file with the strictly greatest
modification time among `session-*.json` files, starting from the Unix
epoch (`0`), first seen wins ties. -/
def scan_latest_session_file (files : List GFile) : Option GFile :=
  files.foldl (fun acc f =>
    if sessionNameOk f.name && decide (acc.elim 0 GFile.mtime < f.mtime) then some f
    else acc) none

/-- `GeminiLogProvider::scan_newer_session` (`gemini.rs` lines 259-312):
find the latest session file in the locked file's directory; bail out
when it is the locked file itself or unreadable; otherwise try the
offset-based search and then, if the baseline is valid (not the default
timestamp), the timestamp-based search. -/
def scan_newer_session (lockedName : String) (dir : List GFile) (since : Nat)
    (baseline : Int) : Option (GLogEntry × Nat) :=
  match scan_latest_session_file dir with
  | none => none
  | some nf =>
    if nf.name = lockedName then none
    else
      match gRead nf with
      | none => none
      | some entries =>
        match find_assistant_reply entries since with
        | some e => some (e, entries.length)
        | none =>
          if baseline ≠ 0 then
            (find_assistant_reply_by_timestamp entries baseline).map
              (fun e => (e, entries.length))
          else none

/-- `GeminiLogProvider::get_latest_reply` (`gemini.rs` lines 317-399)
in the locked state (`should_check_newer = true`): read the locked
file; a qualifying offset-based hit in it wins; otherwise (including
when the locked file is unreadable) fall back to `scan_newer_session`. -/
def gemini_get_latest_reply_locked (locked : GFile) (baseline : Int) (dir : List GFile)
    (since : Nat) : Option GLogEntry :=
  match gRead locked with
  | some entries =>
    match find_assistant_reply entries since with
    | some r => some r
    | none => (scan_newer_session locked.name dir since baseline).map Prod.fst
  | none => (scan_newer_session locked.name dir since baseline).map Prod.fst

/-- `GeminiLogProvider::get_latest_reply` in the unlocked state:
`find_latest_chat_file` yields `found` (`none` when no chat file
exists); a read failure returns `None` (`should_check_newer = false`). -/
def gemini_get_latest_reply_unlocked (found : Option GFile) (since : Nat) :
    Option GLogEntry :=
  match found with
  | none => none
  | some f =>
    match gRead f with
    | none => none
    | some entries => find_assistant_reply entries since

/-- `OpenCodeLogProvider::get_latest_reply` (`opencode.rs` lines
107-142) on the parsed session entries: keep indices `≥ since_offset`,
`rfind` the last entry with role exactly `"assistant"` (no content
check), offset `idx + 1`. -/
def opencode_get_latest_reply (entries : List ChatMsg) (since : Nat) : Option GLogEntry :=
  (((entries.enum).filter (fun p => decide (since ≤ p.1))).reverse.find?
      (fun p => decide (p.2.role = "assistant"))).map
    (fun p => ⟨p.2.content, p.1 + 1, p.2.ts⟩)

/-- One line read by `CodexLogProvider::get_latest_reply` after seeking
to `since_offset`: the `parse_jsonl_entry` result and the stream
position after the line. -/
structure CodexLine where
  parsed : Option ChatMsg
  endPos : Nat
deriving DecidableEq

/-- The per-line update of the codex loop: an entry is produced only
for parsed lines with role exactly `"assistant"`. -/
def codex_line_entry (l : CodexLine) : Option GLogEntry :=
  match l.parsed with
  | some e => if e.role = "assistant" then some ⟨e.content, l.endPos, e.ts⟩ else none
  | none => none

/-- `CodexLogProvider::get_latest_reply` (`codex.rs` lines 84-125):
`none` when no session file exists or it cannot be opened; otherwise
the loop keeps the LAST assistant entry of the lines read from
`since_offset` on. -/
def codex_get_latest_reply (tail : Option (List CodexLine)) : Option GLogEntry :=
  match tail with
  | none => none
  | some lines => lines.reverse.findSome? codex_line_entry

/-! Spec-side formulations of the searches, via `filter`/`getLast?`
rather than the code's reverse scans. -/

/-- The LAST entry at index `≥ since` that is assistant with non-blank
content (what the code returns). -/
def specLastQualifying (entries : List ChatMsg) (since : Nat) : Option GLogEntry :=
  (((entries.enum).filter (fun p => decide (since ≤ p.1) && gQualifies p.2)).getLast?).map
    (fun p => ⟨p.2.content, p.1 + 1, p.2.ts⟩)

/-- The FIRST entry at index `≥ since` that is assistant with non-blank
content (what claim C4 asserts is returned from a newer file). -/
def specFirstQualifying (entries : List ChatMsg) (since : Nat) : Option GLogEntry :=
  (((entries.enum).filter (fun p => decide (since ≤ p.1) && gQualifies p.2)).head?).map
    (fun p => ⟨p.2.content, p.1 + 1, p.2.ts⟩)

/-- The LAST assistant entry strictly newer than `baseline` with
non-blank content. -/
def specLastTsQualifying (entries : List ChatMsg) (baseline : Int) : Option GLogEntry :=
  (((entries.enum).filter (fun p =>
      is_assistant_role p.2.role && decide (baseline < p.2.ts) &&
        !(strBlank p.2.content))).getLast?).map
    (fun p => ⟨p.2.content, p.1 + 1, p.2.ts⟩)

theorem enumFrom_filter_ge_all {α : Type _} (l : List α) :
    ∀ (n m : Nat), m ≤ n →
      (l.enumFrom n).filter (fun p => decide (m ≤ p.1)) = l.enumFrom n := by
  induction l with
  | nil => intro n m _; rfl
  | cons a t ih =>
    intro n m hmn
    rw [List.enumFrom_cons, List.filter_cons]
    have hd : decide (m ≤ (n, a).1) = true := by simpa using hmn
    rw [hd, if_pos rfl, ih (n + 1) m (by omega)]

theorem enumFrom_filter_ge {α : Type _} (l : List α) :
    ∀ (n s : Nat),
      (l.enumFrom n).filter (fun p => decide (n + s ≤ p.1)) = (l.enumFrom n).drop s := by
  induction l with
  | nil => intro n s; simp
  | cons a t ih =>
    intro n s
    cases s with
    | zero =>
      rw [List.drop_zero]
      exact enumFrom_filter_ge_all (a :: t) n (n + 0) (by omega)
    | succ k =>
      rw [List.enumFrom_cons, List.filter_cons]
      have hd : decide (n + (k + 1) ≤ (n, a).1) = false := by simp
      rw [hd]
      simp only [Bool.false_eq_true, if_false, List.drop_succ_cons]
      have harith : n + (k + 1) = (n + 1) + k := by omega
      simp only [harith]
      exact ih (n + 1) k

theorem enum_filter_ge {α : Type _} (l : List α) (s : Nat) :
    (l.enum).filter (fun p => decide (s ≤ p.1)) = (l.enum).drop s := by
  have h := enumFrom_filter_ge l 0 s
  simpa using h

theorem enumFrom_drop {α : Type _} (l : List α) :
    ∀ (n s : Nat), (l.enumFrom n).drop s = (l.drop s).enumFrom (n + s) := by
  induction l with
  | nil => intro n s; simp
  | cons a t ih =>
    intro n s
    cases s with
    | zero => simp
    | succ k =>
      rw [List.enumFrom_cons, List.drop_succ_cons, List.drop_succ_cons, ih (n + 1) k]
      congr 1
      omega

theorem enum_drop_shift {α : Type _} (l : List α) (s : Nat) :
    (l.enum).drop s = ((l.drop s).enum).map (Prod.map (· + s) id) := by
  have h1 : (l.enum).drop s = (l.drop s).enumFrom s := by
    have := enumFrom_drop l 0 s
    simpa [List.enum_eq_enumFrom] using this
  rw [h1, List.enumFrom_eq_map_enum]

theorem find_assistant_reply_by_timestamp_eq_spec (entries : List ChatMsg) (baseline : Int) :
    find_assistant_reply_by_timestamp entries baseline =
      specLastTsQualifying entries baseline := by
  unfold find_assistant_reply_by_timestamp specLastTsQualifying
  rw [reverse_find?_eq_filter_getLast?]

theorem find_assistant_reply_eq_spec (entries : List ChatMsg) (since : Nat) :
    find_assistant_reply entries since = specLastQualifying entries since := by
  unfold find_assistant_reply specLastQualifying
  rw [reverse_find?_eq_filter_getLast?]
  have hcomm : (fun p : Nat × ChatMsg => decide (since ≤ p.1) && gQualifies p.2) =
      (fun p : Nat × ChatMsg => gQualifies p.2 && decide (since ≤ p.1)) := by
    funext p
    exact Bool.and_comm _ _
  rw [hcomm, ← List.filter_filter, enum_filter_ge]
  by_cases hs : since ≤ entries.length
  · have hstart : min since entries.length = since := Nat.min_eq_left hs
    rw [hstart, enum_drop_shift, List.filter_map]
    have hpred : ((fun p : Nat × ChatMsg => gQualifies p.2) ∘ Prod.map (· + since) id) =
        (fun p : Nat × ChatMsg => gQualifies p.2) := by
      funext p
      cases p
      rfl
    rw [hpred, List.getLast?_map, Option.map_map]
    congr 1
    funext p
    cases p with
    | mk i e =>
      show GLogEntry.mk e.content (since + i + 1) e.ts =
        GLogEntry.mk e.content (i + since + 1) e.ts
      congr 2
      omega
  · have hstart : min since entries.length = entries.length := by
      omega
    rw [hstart, List.drop_length]
    have hnil : (entries.enum).drop since = [] := by
      apply List.drop_eq_nil_of_le
      simp only [List.enum_length]
      omega
    rw [hnil]
    rfl

/-- Claim C4 counterexample: locked on empty `session-1.json`, the
newer `session-2.json` holds two qualifying assistant entries `"A"`
then `"B"`; `get_latest_reply(0)` returns the LAST one (`"B"`, offset
2), not the first qualifying entry (`"A"`, offset 1). -/
theorem gemini_locked_last_not_first_cex :
    gemini_get_latest_reply_locked (GFile.mk ("session-1.json") 1 true []) 1
      [GFile.mk ("session-1.json") 1 true [],
       GFile.mk ("session-2.json") 2 true
         [ChatMsg.mk ("assistant") ("A") 5, ChatMsg.mk ("assistant") ("B") 6]] 0 =
      some (GLogEntry.mk ("B") 2 6) ∧
    specFirstQualifying
      [ChatMsg.mk ("assistant") ("A") 5, ChatMsg.mk ("assistant") ("B") 6] 0 =
      some (GLogEntry.mk ("A") 1 5) ∧
    GLogEntry.mk ("B") 2 6 ≠ GLogEntry.mk ("A") 1 5 := by
  refine ⟨?_, ?_, ?_⟩ <;> decide

/-- Claim C4 (amended): while locked, when the locked file is readable
but yields no qualifying entry for `since_offset`, and the containing
directory's latest session file is a different, readable file,
`get_latest_reply` returns the LAST entry of the newer file that is
assistant and non-blank at index `≥ since_offset`, falling back (when
the baseline is not the default timestamp) to the last assistant
non-blank entry strictly newer than `baseline_timestamp`. -/
theorem gemini_locked_rollover (locked : GFile) (baseline : Int) (dir : List GFile)
    (since : Nat) (les : List ChatMsg) (nf : GFile) (nes : List ChatMsg)
    (hl : gRead locked = some les)
    (hn : find_assistant_reply les since = none)
    (hs : scan_latest_session_file dir = some nf)
    (hne : ¬ nf.name = locked.name)
    (hr : gRead nf = some nes) :
    gemini_get_latest_reply_locked locked baseline dir since =
      (match specLastQualifying nes since with
       | some e => some e
       | none => if baseline ≠ 0 then specLastTsQualifying nes baseline else none) := by
  have h1 : gemini_get_latest_reply_locked locked baseline dir since =
      (scan_newer_session locked.name dir since baseline).map Prod.fst := by
    unfold gemini_get_latest_reply_locked
    rw [hl]
    show (match find_assistant_reply les since with
          | some r => some r
          | none => (scan_newer_session locked.name dir since baseline).map Prod.fst) = _
    rw [hn]
  have h2 : scan_newer_session locked.name dir since baseline =
      (match find_assistant_reply nes since with
       | some e => some (e, nes.length)
       | none =>
         if baseline ≠ 0 then
           (find_assistant_reply_by_timestamp nes baseline).map (fun e => (e, nes.length))
         else none) := by
    unfold scan_newer_session
    rw [hs]
    show (if nf.name = locked.name then none
          else
            match gRead nf with
            | none => none
            | some entries =>
              match find_assistant_reply entries since with
              | some e => some (e, entries.length)
              | none =>
                if baseline ≠ 0 then
                  (find_assistant_reply_by_timestamp entries baseline).map
                    (fun e => (e, entries.length))
                else none) = _
    rw [if_neg hne, hr]
  rw [h1, h2, find_assistant_reply_eq_spec, find_assistant_reply_by_timestamp_eq_spec]
  cases hq : specLastQualifying nes since with
  | some e => rfl
  | none =>
    by_cases hb : baseline ≠ 0
    · rw [if_pos hb, if_pos hb]
      show ((specLastTsQualifying nes baseline).map (fun e => (e, nes.length))).map
          Prod.fst = _
      rw [Option.map_map]
      cases specLastTsQualifying nes baseline with
      | none => rfl
      | some e => rfl
    · rw [if_neg hb, if_neg hb]
      rfl

/-- Witness for C4 (amended): spec scenario S4 — locked on a file whose
only entry predates the cursor, rollover file `session-2.json` holds an
assistant record at `T+1`; the poll returns it via the timestamp
fallback. -/
theorem gemini_locked_rollover_witness :
    (gRead (GFile.mk ("session-1.json") 1 true [ChatMsg.mk ("user") ("q") 1]) =
      some [ChatMsg.mk ("user") ("q") 1]) ∧
    (find_assistant_reply [ChatMsg.mk ("user") ("q") 1] 1 = none) ∧
    (gemini_get_latest_reply_locked
        (GFile.mk ("session-1.json") 1 true [ChatMsg.mk ("user") ("q") 1]) 1
        [GFile.mk ("session-1.json") 1 true [ChatMsg.mk ("user") ("q") 1],
         GFile.mk ("session-2.json") 2 true [ChatMsg.mk ("assistant") ("hi") 5]] 1 =
      (match specLastQualifying [ChatMsg.mk ("assistant") ("hi") 5] 1 with
       | some e => some e
       | none => if (1 : Int) ≠ 0 then
           specLastTsQualifying [ChatMsg.mk ("assistant") ("hi") 5] 1 else none)) ∧
    (gemini_get_latest_reply_locked
        (GFile.mk ("session-1.json") 1 true [ChatMsg.mk ("user") ("q") 1]) 1
        [GFile.mk ("session-1.json") 1 true [ChatMsg.mk ("user") ("q") 1],
         GFile.mk ("session-2.json") 2 true [ChatMsg.mk ("assistant") ("hi") 5]] 1 =
      some (GLogEntry.mk ("hi") 1 5)) :=
  ⟨by decide, by decide,
   gemini_locked_rollover
     (GFile.mk ("session-1.json") 1 true [ChatMsg.mk ("user") ("q") 1]) 1
     [GFile.mk ("session-1.json") 1 true [ChatMsg.mk ("user") ("q") 1],
      GFile.mk ("session-2.json") 2 true [ChatMsg.mk ("assistant") ("hi") 5]] 1
     [ChatMsg.mk ("user") ("q") 1]
     (GFile.mk ("session-2.json") 2 true [ChatMsg.mk ("assistant") ("hi") 5])
     [ChatMsg.mk ("assistant") ("hi") 5]
     (by decide) (by decide) (by decide) (by decide) (by decide),
   by decide⟩

theorem find_assistant_reply_nonblank {entries : List ChatMsg} {since : Nat} {r : GLogEntry}
    (h : find_assistant_reply entries since = some r) : strBlank r.content = false := by
  unfold find_assistant_reply at h
  cases hf : ((entries.drop (min since entries.length)).enum).reverse.find?
      (fun p => gQualifies p.2) with
  | none => rw [hf] at h; exact absurd h (by simp)
  | some p =>
    rw [hf] at h
    have hq : gQualifies p.2 = true := by simpa using List.find?_some hf
    unfold gQualifies at hq
    rw [Bool.and_eq_true] at hq
    have hnb : strBlank p.2.content = false := by
      have := hq.2
      simpa using this
    have hr : r = ⟨p.2.content, min since entries.length + p.1 + 1, p.2.ts⟩ := by
      have := h
      simp only [Option.map_some'] at this
      exact (Option.some_inj.mp this).symm
    rw [hr]
    exact hnb

theorem find_assistant_reply_by_timestamp_nonblank {entries : List ChatMsg} {baseline : Int}
    {r : GLogEntry} (h : find_assistant_reply_by_timestamp entries baseline = some r) :
    strBlank r.content = false := by
  unfold find_assistant_reply_by_timestamp at h
  cases hf : (entries.enum).reverse.find? (fun p =>
      is_assistant_role p.2.role && decide (baseline < p.2.ts) && !(strBlank p.2.content)) with
  | none => rw [hf] at h; exact absurd h (by simp)
  | some p =>
    rw [hf] at h
    have hq : (is_assistant_role p.2.role && decide (baseline < p.2.ts) &&
        !(strBlank p.2.content)) = true := by
      simpa using List.find?_some hf
    rw [Bool.and_eq_true] at hq
    have hnb : strBlank p.2.content = false := by
      have := hq.2
      simpa using this
    have hr : r = ⟨p.2.content, p.1 + 1, p.2.ts⟩ := by
      have := h
      simp only [Option.map_some'] at this
      exact (Option.some_inj.mp this).symm
    rw [hr]
    exact hnb

theorem scan_newer_session_nonblank {ln : String} {dir : List GFile} {since : Nat}
    {baseline : Int} {e : GLogEntry} {n : Nat}
    (h : scan_newer_session ln dir since baseline = some (e, n)) :
    strBlank e.content = false := by
  unfold scan_newer_session at h
  cases hs : scan_latest_session_file dir with
  | none => rw [hs] at h; exact absurd h (by simp)
  | some nf =>
    rw [hs] at h
    have h' : (if nf.name = ln then none
        else
          match gRead nf with
          | none => none
          | some entries =>
            match find_assistant_reply entries since with
            | some e0 => some (e0, entries.length)
            | none =>
              if baseline ≠ 0 then
                (find_assistant_reply_by_timestamp entries baseline).map
                  (fun e0 => (e0, entries.length))
              else none) = some (e, n) := h
    by_cases hne : nf.name = ln
    · rw [if_pos hne] at h'
      exact absurd h' (by simp)
    · rw [if_neg hne] at h'
      cases hg : gRead nf with
      | none => rw [hg] at h'; exact absurd h' (by simp)
      | some entries =>
        rw [hg] at h'
        have h'' : (match find_assistant_reply entries since with
            | some e0 => some (e0, entries.length)
            | none =>
              if baseline ≠ 0 then
                (find_assistant_reply_by_timestamp entries baseline).map
                  (fun e0 => (e0, entries.length))
              else none) = some (e, n) := h'
        cases hfa : find_assistant_reply entries since with
        | some e0 =>
          rw [hfa] at h''
          have he : e0 = e := by
            have := Option.some_inj.mp h''
            exact congrArg Prod.fst this
          rw [← he]
          exact find_assistant_reply_nonblank hfa
        | none =>
          rw [hfa] at h''
          by_cases hb : baseline ≠ 0
          · rw [if_pos hb] at h''
            cases hft : find_assistant_reply_by_timestamp entries baseline with
            | none => rw [hft] at h''; exact absurd h'' (by simp)
            | some e1 =>
              rw [hft] at h''
              have he : e1 = e := by
                have h3 : (e1, entries.length) = (e, n) := by
                  have := h''
                  simp only [Option.map_some'] at this
                  exact Option.some_inj.mp this
                exact congrArg Prod.fst h3
              rw [← he]
              exact find_assistant_reply_by_timestamp_nonblank hft
          · rw [if_neg hb] at h''
            exact absurd h'' (by simp)

/-- Claim C5 counterexample: the OpenCode provider does not check for
empty content — a session whose only message is an assistant message
with empty content yields a `LogEntry` with empty (all-whitespace)
content. -/
theorem opencode_empty_content_cex :
    opencode_get_latest_reply [ChatMsg.mk ("assistant") ("") 0] 0 =
      some (GLogEntry.mk ("") 1 0) ∧
    strBlank ("") = true := by
  refine ⟨?_, ?_⟩ <;> decide

/-- Claim C5 (amended): the Gemini provider never returns a reply with
empty or all-whitespace content, in both the locked and the unlocked
state; the OpenCode provider filters only on the role and can return
empty content (see the counterexample). -/
theorem gemini_nonblank_content :
    (∀ (locked : GFile) (baseline : Int) (dir : List GFile) (since : Nat) (r : GLogEntry),
       gemini_get_latest_reply_locked locked baseline dir since = some r →
       strBlank r.content = false)
    ∧
    (∀ (found : Option GFile) (since : Nat) (r : GLogEntry),
       gemini_get_latest_reply_unlocked found since = some r →
       strBlank r.content = false) := by
  constructor
  · intro locked baseline dir since r h
    unfold gemini_get_latest_reply_locked at h
    cases hl : gRead locked with
    | none =>
      rw [hl] at h
      have h' : (scan_newer_session locked.name dir since baseline).map Prod.fst =
          some r := h
      cases hsn : scan_newer_session locked.name dir since baseline with
      | none => rw [hsn] at h'; exact absurd h' (by simp)
      | some p =>
        rw [hsn] at h'
        have hp : p.1 = r := by
          have := h'
          simp only [Option.map_some'] at this
          exact Option.some_inj.mp this
        rw [← hp]
        exact scan_newer_session_nonblank (e := p.1) (n := p.2) (by
          rw [hsn])
    | some entries =>
      rw [hl] at h
      have h' : (match find_assistant_reply entries since with
          | some r0 => some r0
          | none => (scan_newer_session locked.name dir since baseline).map Prod.fst) =
          some r := h
      cases hfa : find_assistant_reply entries since with
      | some r0 =>
        rw [hfa] at h'
        have : r0 = r := Option.some_inj.mp h'
        rw [← this]
        exact find_assistant_reply_nonblank hfa
      | none =>
        rw [hfa] at h'
        cases hsn : scan_newer_session locked.name dir since baseline with
        | none => rw [hsn] at h'; exact absurd h' (by simp)
        | some p =>
          rw [hsn] at h'
          have hp : p.1 = r := by
            have := h'
            simp only [Option.map_some'] at this
            exact Option.some_inj.mp this
          rw [← hp]
          exact scan_newer_session_nonblank (e := p.1) (n := p.2) (by
            rw [hsn])
  · intro found since r h
    cases found with
    | none => exact absurd h (by simp [gemini_get_latest_reply_unlocked])
    | some f =>
      have h' : (match gRead f with
          | none => none
          | some entries => find_assistant_reply entries since) = some r := h
      cases hg : gRead f with
      | none => rw [hg] at h'; exact absurd h' (by simp)
      | some entries =>
        rw [hg] at h'
        exact find_assistant_reply_nonblank h'

/-- Witness for C5 (amended): a locked session returning the reply
`"hi"` has non-blank content; likewise unlocked. -/
theorem gemini_nonblank_content_witness :
    (gemini_get_latest_reply_locked
        (GFile.mk ("session-1.json") 1 true [ChatMsg.mk ("assistant") ("hi") 5]) 0
        [GFile.mk ("session-1.json") 1 true [ChatMsg.mk ("assistant") ("hi") 5]] 0 =
      some (GLogEntry.mk ("hi") 1 5)) ∧
    strBlank (GLogEntry.mk ("hi") 1 5).content = false ∧
    (gemini_get_latest_reply_unlocked
        (some (GFile.mk ("session-1.json") 1 true [ChatMsg.mk ("assistant") ("hi") 5])) 0 =
      some (GLogEntry.mk ("hi") 1 5)) ∧
    strBlank (GLogEntry.mk ("hi") 1 5).content = false :=
  ⟨by decide,
   gemini_nonblank_content.1
     (GFile.mk ("session-1.json") 1 true [ChatMsg.mk ("assistant") ("hi") 5]) 0
     [GFile.mk ("session-1.json") 1 true [ChatMsg.mk ("assistant") ("hi") 5]] 0
     (GLogEntry.mk ("hi") 1 5) (by decide),
   by decide,
   gemini_nonblank_content.2
     (some (GFile.mk ("session-1.json") 1 true [ChatMsg.mk ("assistant") ("hi") 5])) 0
     (GLogEntry.mk ("hi") 1 5) (by decide)⟩

theorem find_assistant_reply_none (entries : List ChatMsg) (since : Nat)
    (h : ∀ p ∈ entries.enum, since ≤ p.1 → gQualifies p.2 = false) :
    find_assistant_reply entries since = none := by
  unfold find_assistant_reply
  rw [Option.map_eq_none', List.find?_eq_none]
  intro p hp
  rw [List.mem_reverse] at hp
  by_cases hs : since ≤ entries.length
  · have hmem : Prod.map (· + min since entries.length) id p ∈ entries.enum := by
      apply List.mem_of_mem_drop (n := min since entries.length)
      rw [enum_drop_shift]
      exact List.mem_map_of_mem _ hp
    have hq := h _ hmem (by
      show since ≤ p.1 + min since entries.length
      have : min since entries.length = since := Nat.min_eq_left hs
      omega)
    have hq2 : gQualifies p.2 = false := hq
    simp [hq2]
  · have hstart : min since entries.length = entries.length := by omega
    rw [hstart, List.drop_length] at hp
    exact absurd hp (by simp)

theorem find_assistant_reply_by_timestamp_none (entries : List ChatMsg) (baseline : Int)
    (h : ∀ p ∈ entries.enum,
        (is_assistant_role p.2.role && decide (baseline < p.2.ts) &&
          !(strBlank p.2.content)) = false) :
    find_assistant_reply_by_timestamp entries baseline = none := by
  unfold find_assistant_reply_by_timestamp
  rw [Option.map_eq_none', List.find?_eq_none]
  intro p hp
  rw [List.mem_reverse] at hp
  simp [h p hp]

theorem opencode_get_latest_reply_none (entries : List ChatMsg) (since : Nat)
    (h : ∀ p ∈ entries.enum, since ≤ p.1 → ¬ p.2.role = "assistant") :
    opencode_get_latest_reply entries since = none := by
  unfold opencode_get_latest_reply
  rw [Option.map_eq_none', List.find?_eq_none]
  intro p hp
  rw [List.mem_reverse, List.mem_filter] at hp
  obtain ⟨hpe, hge⟩ := hp
  have hs : since ≤ p.1 := by simpa using hge
  simp [h p hpe hs]

theorem codex_get_latest_reply_none (lines : List CodexLine)
    (h : ∀ l ∈ lines, l.parsed.all (fun e => !(decide (e.role = "assistant"))) = true) :
    codex_get_latest_reply (some lines) = none := by
  show lines.reverse.findSome? codex_line_entry = none
  rw [List.findSome?_eq_none_iff]
  intro l hl
  rw [List.mem_reverse] at hl
  have ha := h l hl
  cases hp : l.parsed with
  | none => simp [codex_line_entry, hp]
  | some e =>
    rw [hp] at ha
    have hrole : ¬ e.role = "assistant" := by simpa using ha
    unfold codex_line_entry
    rw [hp]
    show (if e.role = "assistant" then
        some (GLogEntry.mk e.content l.endPos e.ts) else none) = none
    rw [if_neg hrole]

theorem scan_newer_session_none (ln : String) (dir : List GFile) (since : Nat)
    (baseline : Int)
    (h : ∀ nf ∈ (scan_latest_session_file dir).toList,
      (∀ p ∈ nf.entries.enum, since ≤ p.1 → gQualifies p.2 = false) ∧
      (∀ p ∈ nf.entries.enum,
        (is_assistant_role p.2.role && decide (baseline < p.2.ts) &&
          !(strBlank p.2.content)) = false)) :
    scan_newer_session ln dir since baseline = none := by
  unfold scan_newer_session
  cases hs : scan_latest_session_file dir with
  | none => rfl
  | some nf =>
    obtain ⟨hq, hts⟩ := h nf (by rw [hs]; exact List.mem_cons_self nf [])
    show (if nf.name = ln then none
        else
          match gRead nf with
          | none => none
          | some entries =>
            match find_assistant_reply entries since with
            | some e => some (e, entries.length)
            | none =>
              if baseline ≠ 0 then
                (find_assistant_reply_by_timestamp entries baseline).map
                  (fun e => (e, entries.length))
              else none) = none
    by_cases hne : nf.name = ln
    · rw [if_pos hne]
    · rw [if_neg hne]
      cases hro : nf.readOk with
      | false =>
        have hgr : gRead nf = none := by simp [gRead, hro]
        rw [hgr]
      | true =>
        have hgr : gRead nf = some nf.entries := by simp [gRead, hro]
        rw [hgr]
        show (match find_assistant_reply nf.entries since with
            | some e => some (e, nf.entries.length)
            | none =>
              if baseline ≠ 0 then
                (find_assistant_reply_by_timestamp nf.entries baseline).map
                  (fun e => (e, nf.entries.length))
              else none) = none
        rw [find_assistant_reply_none _ _ hq]
        show (if baseline ≠ 0 then
            (find_assistant_reply_by_timestamp nf.entries baseline).map
              (fun e => (e, nf.entries.length))
          else none) = none
        rw [find_assistant_reply_by_timestamp_none _ _ hts]
        by_cases hb : baseline ≠ 0
        · rw [if_pos hb]
          rfl
        · rw [if_neg hb]

/-- Claim C6 counterexample: for the locked Gemini provider the
timestamp fallback ignores `since_offset`.  With `since_offset = 3`, no
qualifying assistant message exists at index ≥ 3 in either session
file, yet `get_latest_reply(3)` returns the newer file's sole entry
(index 0) because its timestamp exceeds the baseline. -/
theorem gemini_locked_offset_ignored_cex :
    specLastQualifying ([] : List ChatMsg) 3 = none ∧
    specLastQualifying [ChatMsg.mk ("assistant") ("hi") 5] 3 = none ∧
    gemini_get_latest_reply_locked (GFile.mk ("session-1.json") 1 true []) 1
      [GFile.mk ("session-1.json") 1 true [],
       GFile.mk ("session-2.json") 2 true [ChatMsg.mk ("assistant") ("hi") 5]] 3 =
      some (GLogEntry.mk ("hi") 1 5) := by
  refine ⟨?_, ?_, ?_⟩ <;> decide

/-- Claim C6 (amended): `get_latest_reply(since)` is `None` when no
qualifying assistant message exists at index/byte-offset ≥ `since` —
for the Codex JSONL provider, the OpenCode provider, and the unlocked
Gemini provider as stated; for the locked Gemini provider the rollover
fallback must additionally find no assistant entry in the newer session
file strictly newer than the baseline timestamp (the counterexample
shows this extra condition cannot be dropped). -/
theorem get_latest_reply_none :
    (codex_get_latest_reply none = none ∧
     ∀ (lines : List CodexLine),
       (∀ l ∈ lines, l.parsed.all (fun e => !(decide (e.role = "assistant"))) = true) →
       codex_get_latest_reply (some lines) = none)
    ∧
    (∀ (entries : List ChatMsg) (since : Nat),
       (∀ p ∈ entries.enum, since ≤ p.1 → ¬ p.2.role = "assistant") →
       opencode_get_latest_reply entries since = none)
    ∧
    (∀ (found : Option GFile) (since : Nat),
       (∀ f ∈ found.toList, ∀ p ∈ f.entries.enum, since ≤ p.1 →
         gQualifies p.2 = false) →
       gemini_get_latest_reply_unlocked found since = none)
    ∧
    (∀ (locked : GFile) (baseline : Int) (dir : List GFile) (since : Nat),
       (∀ p ∈ locked.entries.enum, since ≤ p.1 → gQualifies p.2 = false) →
       (∀ nf ∈ (scan_latest_session_file dir).toList,
         (∀ p ∈ nf.entries.enum, since ≤ p.1 → gQualifies p.2 = false) ∧
         (∀ p ∈ nf.entries.enum,
           (is_assistant_role p.2.role && decide (baseline < p.2.ts) &&
             !(strBlank p.2.content)) = false)) →
       gemini_get_latest_reply_locked locked baseline dir since = none) := by
  refine ⟨⟨rfl, codex_get_latest_reply_none⟩, opencode_get_latest_reply_none, ?_, ?_⟩
  · intro found since h
    cases found with
    | none => rfl
    | some f =>
      show (match gRead f with
          | none => none
          | some entries => find_assistant_reply entries since) = none
      cases hro : f.readOk with
      | false =>
        have hgr : gRead f = none := by simp [gRead, hro]
        rw [hgr]
      | true =>
        have hgr : gRead f = some f.entries := by simp [gRead, hro]
        rw [hgr]
        exact find_assistant_reply_none _ _ (h f (List.mem_cons_self f []))
  · intro locked baseline dir since h1 h2
    have hscan : scan_newer_session locked.name dir since baseline = none :=
      scan_newer_session_none locked.name dir since baseline h2
    unfold gemini_get_latest_reply_locked
    cases hro : locked.readOk with
    | false =>
      have hgr : gRead locked = none := by simp [gRead, hro]
      rw [hgr]
      show (scan_newer_session locked.name dir since baseline).map Prod.fst = none
      rw [hscan]
      rfl
    | true =>
      have hgr : gRead locked = some locked.entries := by simp [gRead, hro]
      rw [hgr]
      show (match find_assistant_reply locked.entries since with
          | some r => some r
          | none => (scan_newer_session locked.name dir since baseline).map Prod.fst) = none
      rw [find_assistant_reply_none _ _ h1]
      show (scan_newer_session locked.name dir since baseline).map Prod.fst = none
      rw [hscan]
      rfl

/-- Witness for C6 (amended): each provider on a small session with no
qualifying message at offset ≥ since returns `None`. -/
theorem get_latest_reply_none_witness :
    codex_get_latest_reply
      (some [CodexLine.mk (some (ChatMsg.mk ("user") ("q") 1)) 42,
             CodexLine.mk none 50]) = none ∧
    opencode_get_latest_reply [ChatMsg.mk ("assistant") ("hi") 5] 1 = none ∧
    gemini_get_latest_reply_unlocked
      (some (GFile.mk ("session-1.json") 1 true [ChatMsg.mk ("assistant") ("hi") 5])) 1 =
      none ∧
    gemini_get_latest_reply_locked
      (GFile.mk ("session-1.json") 1 true [ChatMsg.mk ("user") ("q") 1]) 0
      [GFile.mk ("session-1.json") 1 true [ChatMsg.mk ("user") ("q") 1],
       GFile.mk ("session-2.json") 2 true [ChatMsg.mk ("user") ("r") 5]] 0 = none :=
  ⟨get_latest_reply_none.1.2 _ (by decide),
   get_latest_reply_none.2.1 [ChatMsg.mk ("assistant") ("hi") 5] 1 (by decide),
   get_latest_reply_none.2.2.1 _ 1 (by decide),
   get_latest_reply_none.2.2.2
     (GFile.mk ("session-1.json") 1 true [ChatMsg.mk ("user") ("q") 1]) 0
     [GFile.mk ("session-1.json") 1 true [ChatMsg.mk ("user") ("q") 1],
      GFile.mk ("session-2.json") 2 true [ChatMsg.mk ("user") ("r") 5]] 0
     (by decide) (by decide)⟩
